import Mathlib

/-!
# go-game: the animation package (Arrangement, Transform, Squash, Affine)

A shallow embedding of `animation/animation.go` and of the animation state
table built in `shared.go` (`menuSceneInit`).

Conventions of the embedding.

* Go `float32` and `geom.Pt` (a `float32`) are one abstract carrier `F`; the
  operations the package uses on it are the fields of `Float32Ops`. No
  algebraic law is assumed of them, so the theorems hold for IEEE-754
  arithmetic as for any other.
* `clock.Time` is a Go `int64`; only comparisons and differences of small
  values occur, it is embedded as `Int`.
* `f32.Affine` and its methods belong to an external package; they are the
  abstract fields of `AffineOps`.
* The `Transformer` interface has exactly two implementations in the
  repository, `Rotate` and `Move`; it is embedded as their sum.
* A method with a pointer receiver becomes a function returning the updated
  receiver. The diagnostic `fmt.Printf` of `Squash` has no effect on the
  program state and is left out.
-/

set_option autoImplicit false

namespace animation

/-! ## Data model -/

/-- The `float32` operations used by the package: the constants `0` and `1`,
`+`, `*`, unary `-` and the comparison `==`. -/
structure Float32Ops (F : Type) where
  zero : F
  one : F
  add : F → F → F
  mul : F → F → F
  neg : F → F
  beq : F → F → Bool

/-- The Go type `geom.Point`. -/
structure Point (F : Type) where
  X : F
  Y : F

/-- The methods of the external type `f32.Affine` that `Affine` calls. Each
takes the accumulated matrix and returns the matrix with one more step
composed onto it (`a.Translate(&a, x, y)` stores the result back in `a`). -/
structure AffineOps (F Aff : Type) where
  Identity : Aff
  Translate : Aff → F → F → Aff
  Rotate : Aff → F → Aff
  Scale : Aff → F → F → Aff

/-- The implementations of the Go interface `Transformer`:
`type Rotate float32` and `type Move geom.Point`. -/
inductive Transformer (F : Type) where
  | Rotate (r : F)
  | Move (m : Point F)

/-- The Go struct `Transform`. -/
structure Transform (F : Type) where
  T0 : Int
  T1 : Int
  Tween : Int → Int → Int → F
  Transformer : animation.Transformer F

/-- The Go struct `Arrangement`. `Size` is a pointer that may be nil. -/
structure Arrangement (F Tex : Type) where
  Offset : Point F
  Pivot : Point F
  Size : Option (Point F)
  Rotation : F
  Texture : Tex
  Transforms : List (Transform F)

/-- The two calls `Arrange` makes on the `sprite.Engine`. -/
inductive EngineCall (N Tex Aff : Type) where
  | SetTexture (n : N) (t : Int) (tex : Tex)
  | SetTransform (n : N) (t : Int) (m : Aff)

variable {F Tex Aff N : Type}

/-! ## Transformers -/

/-- The method `func (r Rotate) Transform(ar *Arrangement, tween float32)`:
`ar.Rotation += tween * float32(r)`. -/
def Rotate.Transform (A : Float32Ops F) (r : F) (ar : Arrangement F Tex) (tween : F) :
    Arrangement F Tex :=
  { ar with Rotation := A.add ar.Rotation (A.mul tween r) }

/-- The method `func (m Move) Transform(ar *Arrangement, tween float32)`:
`ar.Offset.X += m.X * geom.Pt(tween)` then `ar.Offset.Y += m.Y * geom.Pt(tween)`. -/
def Move.Transform (A : Float32Ops F) (m : Point F) (ar : Arrangement F Tex) (tween : F) :
    Arrangement F Tex :=
  let ar1 := { ar with Offset := { ar.Offset with X := A.add ar.Offset.X (A.mul m.X tween) } }
  { ar1 with Offset := { ar1.Offset with Y := A.add ar1.Offset.Y (A.mul m.Y tween) } }

/-- Dynamic dispatch of `a.Transformer.Transform(ar, tween)`. -/
def Transformer.Transform (A : Float32Ops F) (x : Transformer F) (ar : Arrangement F Tex)
    (tween : F) : Arrangement F Tex :=
  match x with
  | Transformer.Rotate r => Rotate.Transform A r ar tween
  | Transformer.Move m => Move.Transform A m ar tween

/-! ## Affine -/

/-- The method `func (ar *Arrangement) Affine() f32.Affine`; the receiver may
be nil. -/
def Affine (A : Float32Ops F) (O : AffineOps F Aff) : Option (Arrangement F Tex) → Aff
  | none => O.Identity
  | some ar =>
    let a := O.Identity
    let a := O.Translate a ar.Offset.X ar.Offset.Y
    let a := if (!(A.beq ar.Rotation A.zero)) = true then O.Rotate a ar.Rotation else a
    let x := ar.Pivot.X
    let y := ar.Pivot.Y
    let a := O.Translate a (A.neg x) (A.neg y)
    match ar.Size with
    | some s => O.Scale a s.X s.Y
    | none => a

/-! ## Arrange -/

/-- The loop of `Arrange`: `for _, a := range ar.Transforms` with body
`tween := a.Tween(a.T0, a.T1, t); a.Transformer.Transform(&ar2, tween)`. -/
def Arrange.loop (A : Float32Ops F) (t : Int) :
    List (Transform F) → Arrangement F Tex → Arrangement F Tex
  | [], ar2 => ar2
  | a :: rest, ar2 =>
    let tween := a.Tween a.T0 a.T1 t
    Arrange.loop A t rest (Transformer.Transform A a.Transformer ar2 tween)

/-- What a call of `Arrange` leaves behind: the receiver as stored afterwards
and the calls made on the engine, in order. -/
structure ArrangeResult (F Tex Aff N : Type) where
  stored : Arrangement F Tex
  calls : List (EngineCall N Tex Aff)

/-- The method `func (ar *Arrangement) Arrange(e sprite.Engine, n *sprite.Node, t clock.Time)`.
`ar2 := *ar` copies the struct: `Offset`, `Pivot`, `Rotation` and `Texture`
are copied by value, while the `Size` pointer and the `Transforms` slice of
the copy alias the data of the receiver. The receiver therefore keeps its
value fields, and whatever the loop leaves in the aliased fields of the copy
is what the receiver holds afterwards. -/
def Arrange (A : Float32Ops F) (O : AffineOps F Aff) (ar : Arrangement F Tex) (n : N)
    (t : Int) : ArrangeResult F Tex Aff N :=
  let ar2 := Arrange.loop A t ar.Transforms ar
  { stored := { ar with Size := ar2.Size, Transforms := ar2.Transforms }
    calls := [EngineCall.SetTexture n t ar2.Texture,
              EngineCall.SetTransform n t (Affine A O (some ar2))] }

/-! ## Squash -/

/-- The loop of `Squash`: ranges over the transforms, stops (`break`) at the
first one with `t < a.T1`, otherwise applies it to the receiver with tween `1`
and increments `remove`. Returns the receiver and `remove`. -/
def Squash.loop (A : Float32Ops F) (t : Int) :
    List (Transform F) → Arrangement F Tex → Nat → Arrangement F Tex × Nat
  | [], ar, remove => (ar, remove)
  | a :: rest, ar, remove =>
    if t < a.T1 then (ar, remove)
    else Squash.loop A t rest (Transformer.Transform A a.Transformer ar A.one) (remove + 1)

/-- The method `func (ar *Arrangement) Squash(t clock.Time)`: the loop over
`ar.Transforms` starting with `remove := 0`, then
`ar.Transforms = ar.Transforms[remove:]`. -/
def Squash (A : Float32Ops F) (ar : Arrangement F Tex) (t : Int) : Arrangement F Tex :=
  let r := Squash.loop A t ar.Transforms ar 0
  { r.1 with Transforms := r.1.Transforms.drop r.2 }

/-! ## Reference definitions, following the specification -/

/-- Commits the transforms of `P` in sequence order, each through its
Transformer at tween `1`. -/
def commit (A : Float32Ops F) (P : List (Transform F)) (ar : Arrangement F Tex) :
    Arrangement F Tex :=
  P.foldl (fun acc a => Transformer.Transform A a.Transformer acc A.one) ar

/-- The longest prefix of the transforms whose end time has passed
(`T1 <= t`). -/
def expiredPrefix (t : Int) (l : List (Transform F)) : List (Transform F) :=
  l.takeWhile (fun a => decide (a.T1 ≤ t))

/-- Reference definition of Squash: the pose is `ar` with the expired prefix
committed, the queue is `ar.Transforms` with that prefix dropped. -/
def Squash_ref (A : Float32Ops F) (ar : Arrangement F Tex) (t : Int) : Arrangement F Tex :=
  let P := expiredPrefix t ar.Transforms
  { commit A P ar with Transforms := ar.Transforms.drop P.length }

/-- Reference definition of the pose Arrange evaluates: every transform of
the queue applied in insertion order to one accumulating copy, each with
tween `Tween(T0, T1, t)`. -/
def poseAt (A : Float32Ops F) (ar : Arrangement F Tex) (t : Int) : Arrangement F Tex :=
  ar.Transforms.foldl
    (fun acc a => Transformer.Transform A a.Transformer acc (a.Tween a.T0 a.T1 t)) ar

/-- One step of the composition of an affine transform. -/
inductive AffineStep (F : Type) where
  | translate (x y : F)
  | rotate (r : F)
  | scale (x y : F)

/-- Composes one step onto the accumulated matrix. -/
def AffineStep.compose (O : AffineOps F Aff) (m : Aff) : AffineStep F → Aff
  | AffineStep.translate x y => O.Translate m x y
  | AffineStep.rotate r => O.Rotate m r
  | AffineStep.scale x y => O.Scale m x y

/-! ## Concrete instances used to evaluate the definitions -/

/-- Exact integer arithmetic as an instance of the operations. -/
def intOps : Float32Ops Int :=
  { zero := 0, one := 1, add := fun x y => x + y, mul := fun x y => x * y,
    neg := fun x => -x, beq := fun x y => decide (x = y) }

/-- The free instance of the affine operations: a matrix is the list of
steps composed so far, latest last. -/
def traceOps (F : Type) : AffineOps F (List (AffineStep F)) :=
  { Identity := []
    Translate := fun m x y => m ++ [AffineStep.translate x y]
    Rotate := fun m r => m ++ [AffineStep.rotate r]
    Scale := fun m x y => m ++ [AffineStep.scale x y] }

/-- A tween that clamps to `1` from the end of its window on (and is `0`
before). -/
def stepTween (_t0 t1 t : Int) : Int := if t1 ≤ t then 1 else 0

/-- A sample arrangement with the given queue. -/
def sampleArrangement (q : List (Transform Int)) : Arrangement Int Nat :=
  { Offset := ⟨24, -36⟩, Pivot := ⟨18, 18⟩, Size := some ⟨36, 36⟩, Rotation := 0,
    Texture := 7, Transforms := q }

/-- A sample Move transform ending at `t1`. -/
def sampleMove (t1 : Int) (dx dy : Int) : Transform Int :=
  { T0 := 0, T1 := t1, Tween := stepTween, Transformer := Transformer.Move ⟨dx, dy⟩ }

/-- A sample Rotate transform ending at `t1`. -/
def sampleRotate (t1 : Int) (r : Int) : Transform Int :=
  { T0 := 0, T1 := t1, Tween := stepTween, Transformer := Transformer.Rotate r }

/-- The steps Affine composes, in order, following the specification:
translate by the offset, rotate by the rotation (left out exactly when
`Rotation == 0`), translate by minus the pivot, scale by the size (left out
exactly when the size is absent). -/
def affineSteps (A : Float32Ops F) (ar : Arrangement F Tex) : List (AffineStep F) :=
  [AffineStep.translate ar.Offset.X ar.Offset.Y]
    ++ (if A.beq ar.Rotation A.zero = true then [] else [AffineStep.rotate ar.Rotation])
    ++ [AffineStep.translate (A.neg ar.Pivot.X) (A.neg ar.Pivot.Y)]
    ++ (match ar.Size with
        | none => []
        | some s => [AffineStep.scale s.X s.Y])

/-! ## The animation state machine -/

/-- Modelled from the spec: the type `animation.State`, whose declaration is
missing from the sources (`menuSceneInit` fills its fields). A state has a
duration in ticks and the name of the state that follows it. Its map of
transforms to install on target nodes does not take part in the choice of the
current state and is left out. -/
structure State where
  Duration : Int
  Next : String

/-- Modelled from the spec: the type `animation.Animation`, whose declaration
is missing from the sources: the name of the current state, the time `since`
at which it was entered, and the table of states (a map with unique keys,
here an association list). -/
structure Animation where
  Current : String
  Since : Int
  States : List (String × State)

/-- Modelled from the spec: the transition out of a state `s`, missing from
the sources: `current = next, since = now`. -/
def Animation.advance (m : Animation) (s : State) (now : Int) : Animation :=
  { m with Current := s.Next, Since := now }

/-- Modelled from the spec: the pass-through of zero-duration states, missing
from the sources: while the state just entered has duration 0 the machine
advances again within the same tick, at most `fuel` times. -/
def Animation.passThrough (now : Int) : Nat → Animation → Animation
  | 0, m => m
  | fuel + 1, m =>
    match m.States.lookup m.Current with
    | some s =>
      if s.Duration = 0 then Animation.passThrough now fuel (Animation.advance m s now) else m
    | none => m

/-- Modelled from the spec: the scheduler tick of the animation state
machine, missing from the sources: if `now - since >= duration` of the
current state the machine transitions to its next state, then passes through
zero-duration states, the number of such advances bounded by the number of
states. -/
def Animation.tick (m : Animation) (now : Int) : Animation :=
  match m.States.lookup m.Current with
  | some s =>
    if s.Duration ≤ now - m.Since then
      Animation.passThrough now m.States.length (Animation.advance m s now)
    else m
  | none => m

/-- Runs the machine through a sequence of ticks, given by their times. -/
def Animation.run (m : Animation) (ticks : List Int) : Animation :=
  ticks.foldl Animation.tick m

/-- The state table `menuSceneInit` builds in `addSkull` for a given
`duration`: `init` lasts `duration / 4` and leads to `falling`, `falling`
lasts `duration` and leads to `reset`, `reset` lasts 0 and leads to
`falling`. -/
def skullStates (duration : Int) : List (String × State) :=
  [("init", { Duration := Int.tdiv duration 4, Next := "falling" }),
   ("falling", { Duration := duration, Next := "reset" }),
   ("reset", { Duration := 0, Next := "falling" })]

/-- The machine `addSkull` creates, with `Current: "init"`, taken to be
entered at time 0. -/
def skullAnim (duration : Int) : Animation :=
  { Current := "init", Since := 0, States := skullStates duration }

/-! ## Lemmas on the transformers -/

theorem Transformer.Transform_Transforms (A : Float32Ops F) (x : Transformer F)
    (ar : Arrangement F Tex) (w : F) :
    (Transformer.Transform A x ar w).Transforms = ar.Transforms := by
  cases x <;> rfl

theorem Transformer.Transform_Size (A : Float32Ops F) (x : Transformer F)
    (ar : Arrangement F Tex) (w : F) :
    (Transformer.Transform A x ar w).Size = ar.Size := by
  cases x <;> rfl

theorem Transformer.Transform_Texture (A : Float32Ops F) (x : Transformer F)
    (ar : Arrangement F Tex) (w : F) :
    (Transformer.Transform A x ar w).Texture = ar.Texture := by
  cases x <;> rfl

theorem Transformer.Transform_Pivot (A : Float32Ops F) (x : Transformer F)
    (ar : Arrangement F Tex) (w : F) :
    (Transformer.Transform A x ar w).Pivot = ar.Pivot := by
  cases x <;> rfl

/-! ## Lemmas on Squash -/

theorem commit_nil (A : Float32Ops F) (ar : Arrangement F Tex) : commit A [] ar = ar := rfl

theorem commit_cons (A : Float32Ops F) (a : Transform F) (P : List (Transform F))
    (ar : Arrangement F Tex) :
    commit A (a :: P) ar = commit A P (Transformer.Transform A a.Transformer ar A.one) := rfl

theorem commit_append (A : Float32Ops F) (P Q : List (Transform F)) (ar : Arrangement F Tex) :
    commit A (P ++ Q) ar = commit A Q (commit A P ar) := by
  simp [commit, List.foldl_append]

theorem commit_Transforms (A : Float32Ops F) (P : List (Transform F))
    (ar : Arrangement F Tex) : (commit A P ar).Transforms = ar.Transforms := by
  induction P generalizing ar with
  | nil => rfl
  | cons a P ih => rw [commit_cons, ih, Transformer.Transform_Transforms]

theorem expiredPrefix_nil (t : Int) : expiredPrefix t ([] : List (Transform F)) = [] := rfl

theorem expiredPrefix_cons_expired (t : Int) (a : Transform F) (l : List (Transform F))
    (h : a.T1 ≤ t) : expiredPrefix t (a :: l) = a :: expiredPrefix t l := by
  simp [expiredPrefix, List.takeWhile_cons, h]

theorem expiredPrefix_cons_active (t : Int) (a : Transform F) (l : List (Transform F))
    (h : t < a.T1) : expiredPrefix t (a :: l) = [] := by
  simp [expiredPrefix, List.takeWhile_cons, not_le.mpr h]

/-- The expired prefix of `pre ++ b :: post` is `pre` when all of `pre` has
expired and `b` has not. -/
theorem expiredPrefix_split (t : Int) (pre post : List (Transform F)) (b : Transform F)
    (hpre : ∀ a ∈ pre, a.T1 ≤ t) (hb : t < b.T1) :
    expiredPrefix t (pre ++ b :: post) = pre := by
  induction pre with
  | nil => exact expiredPrefix_cons_active t b post hb
  | cons a pre ih =>
    rw [List.cons_append, expiredPrefix_cons_expired t a _ (hpre a (List.mem_cons_self a pre)),
      ih (fun x hx => hpre x (List.mem_cons_of_mem a hx))]

/-- The expired prefix of a queue all of whose transforms have expired is the
whole queue. -/
theorem expiredPrefix_all (t : Int) (l : List (Transform F)) (h : ∀ a ∈ l, a.T1 ≤ t) :
    expiredPrefix t l = l := by
  induction l with
  | nil => rfl
  | cons a l ih =>
    rw [expiredPrefix_cons_expired t a l (h a (List.mem_cons_self a l)),
      ih (fun x hx => h x (List.mem_cons_of_mem a hx))]

/-- The loop of Squash commits the expired prefix and counts its length. -/
theorem Squash.loop_eq (A : Float32Ops F) (t : Int) (l : List (Transform F))
    (ar : Arrangement F Tex) (k : Nat) :
    Squash.loop A t l ar k
      = (commit A (expiredPrefix t l) ar, k + (expiredPrefix t l).length) := by
  induction l generalizing ar k with
  | nil => rfl
  | cons a l ih =>
    by_cases h : t < a.T1
    · simp [Squash.loop, h, expiredPrefix_cons_active t a l h, commit_nil]
    · have h2 : a.T1 ≤ t := not_lt.mp h
      simp only [Squash.loop, h, if_false, ih, expiredPrefix_cons_expired t a l h2, commit_cons,
        List.length_cons]
      congr 1
      omega

/-- The code of Squash computes the reference definition. -/
theorem Squash_eq_ref (A : Float32Ops F) (ar : Arrangement F Tex) (t : Int) :
    Squash A ar t = Squash_ref A ar t := by
  simp only [Squash, Squash_ref, Squash.loop_eq, commit_Transforms, Nat.zero_add]

/-- Replacing the queue commutes with a transformer: no transformer reads or
writes `Transforms`. -/
theorem setQueue_Transform (A : Float32Ops F) (x : Transformer F)
    (ar : Arrangement F Tex) (w : F) (q : List (Transform F)) :
    Transformer.Transform A x { ar with Transforms := q } w
      = { Transformer.Transform A x ar w with Transforms := q } := by
  cases x <;> rfl

theorem commit_setQueue (A : Float32Ops F) (P : List (Transform F)) (ar : Arrangement F Tex)
    (q : List (Transform F)) :
    commit A P { ar with Transforms := q } = { commit A P ar with Transforms := q } := by
  induction P generalizing ar with
  | nil => rfl
  | cons a P ih => rw [commit_cons, commit_cons, setQueue_Transform, ih]

/-- With `t1 <= t2`, the prefix expired at `t2` is the prefix expired at `t1`
followed by the prefix expired at `t2` of what `t1` leaves. -/
theorem expiredPrefix_mono (t1 t2 : Int) (h : t1 ≤ t2) (l : List (Transform F)) :
    expiredPrefix t2 l
      = expiredPrefix t1 l ++ expiredPrefix t2 (l.drop (expiredPrefix t1 l).length) := by
  induction l with
  | nil => rfl
  | cons a l ih =>
    by_cases h1 : a.T1 ≤ t1
    · have h2 : a.T1 ≤ t2 := le_trans h1 h
      rw [expiredPrefix_cons_expired t1 a l h1, expiredPrefix_cons_expired t2 a l h2]
      simp only [List.length_cons, List.drop_succ_cons, List.cons_append]
      rw [← ih]
    · rw [expiredPrefix_cons_active t1 a l (not_le.mp h1)]
      rfl

/-- Nothing has expired at `t` in what Squash at `t` leaves in the queue. -/
theorem expiredPrefix_drop_self (t : Int) (l : List (Transform F)) :
    expiredPrefix t (l.drop (expiredPrefix t l).length) = [] := by
  induction l with
  | nil => rfl
  | cons a l ih =>
    by_cases h1 : a.T1 ≤ t
    · rw [expiredPrefix_cons_expired t a l h1]
      simpa using ih
    · rw [expiredPrefix_cons_active t a l (not_le.mp h1)]
      exact expiredPrefix_cons_active t a l (not_le.mp h1)

theorem Squash_ref_Transforms (A : Float32Ops F) (ar : Arrangement F Tex) (t : Int) :
    (Squash_ref A ar t).Transforms = ar.Transforms.drop (expiredPrefix t ar.Transforms).length :=
  rfl

/-- Two passes of the reference Squash at increasing times are one pass at
the later time. -/
theorem Squash_ref_twice (A : Float32Ops F) (ar : Arrangement F Tex) (t1 t2 : Int)
    (h : t1 ≤ t2) : Squash_ref A (Squash_ref A ar t1) t2 = Squash_ref A ar t2 := by
  have hm := expiredPrefix_mono t1 t2 h ar.Transforms
  have hl : (expiredPrefix t1 ar.Transforms).length
      + (expiredPrefix t2 (ar.Transforms.drop (expiredPrefix t1 ar.Transforms).length)).length
      = (expiredPrefix t2 ar.Transforms).length := by
    rw [← List.length_append, ← hm]
  have hc : commit A (expiredPrefix t2 ar.Transforms) ar
      = commit A (expiredPrefix t2 (ar.Transforms.drop (expiredPrefix t1 ar.Transforms).length))
          (commit A (expiredPrefix t1 ar.Transforms) ar) := by
    rw [← commit_append, ← hm]
  simp only [Squash_ref, commit_setQueue, List.drop_drop, hl, hc]

/-! ## Lemmas on Arrange -/

/-- The loop of Arrange is the left fold of the reference definition. -/
theorem Arrange.loop_eq_foldl (A : Float32Ops F) (t : Int) (l : List (Transform F))
    (ar2 : Arrangement F Tex) :
    Arrange.loop A t l ar2
      = l.foldl (fun acc a => Transformer.Transform A a.Transformer acc (a.Tween a.T0 a.T1 t))
          ar2 := by
  induction l generalizing ar2 with
  | nil => rfl
  | cons a l ih => simp only [Arrange.loop, List.foldl_cons, ih]

theorem Arrange.loop_Transforms (A : Float32Ops F) (t : Int) (l : List (Transform F))
    (ar2 : Arrangement F Tex) : (Arrange.loop A t l ar2).Transforms = ar2.Transforms := by
  induction l generalizing ar2 with
  | nil => rfl
  | cons a l ih => simp only [Arrange.loop, ih, Transformer.Transform_Transforms]

theorem Arrange.loop_Size (A : Float32Ops F) (t : Int) (l : List (Transform F))
    (ar2 : Arrangement F Tex) : (Arrange.loop A t l ar2).Size = ar2.Size := by
  induction l generalizing ar2 with
  | nil => rfl
  | cons a l ih => simp only [Arrange.loop, ih, Transformer.Transform_Size]

theorem Arrange.loop_Texture (A : Float32Ops F) (t : Int) (l : List (Transform F))
    (ar2 : Arrangement F Tex) : (Arrange.loop A t l ar2).Texture = ar2.Texture := by
  induction l generalizing ar2 with
  | nil => rfl
  | cons a l ih => simp only [Arrange.loop, ih, Transformer.Transform_Texture]

theorem Arrange.loop_setQueue (A : Float32Ops F) (t : Int) (l : List (Transform F))
    (ar2 : Arrangement F Tex) (q : List (Transform F)) :
    Arrange.loop A t l { ar2 with Transforms := q }
      = { Arrange.loop A t l ar2 with Transforms := q } := by
  induction l generalizing ar2 with
  | nil => rfl
  | cons a l ih => simp only [Arrange.loop, setQueue_Transform, ih]

/-- Affine does not read the queue. -/
theorem Affine_setQueue (A : Float32Ops F) (O : AffineOps F Aff) (ar : Arrangement F Tex)
    (q : List (Transform F)) :
    Affine A O (some { ar with Transforms := q }) = Affine A O (some ar) := rfl

/-- The stored receiver is untouched by Arrange. -/
theorem Arrange_stored (A : Float32Ops F) (O : AffineOps F Aff) (ar : Arrangement F Tex)
    (n : N) (t : Int) : (Arrange A O ar n t).stored = ar := by
  simp only [Arrange, Arrange.loop_Size, Arrange.loop_Transforms]

/-- Committing the expired prefix and then evaluating what is left is
evaluating the whole queue, when the tween of an expired transform is `1`. -/
theorem Arrange.loop_after_commit (A : Float32Ops F) (t : Int) (l : List (Transform F))
    (ar : Arrangement F Tex)
    (h : ∀ a ∈ l, a.T1 ≤ t → a.Tween a.T0 a.T1 t = A.one) :
    Arrange.loop A t (l.drop (expiredPrefix t l).length) (commit A (expiredPrefix t l) ar)
      = Arrange.loop A t l ar := by
  induction l generalizing ar with
  | nil => rfl
  | cons a l ih =>
    by_cases h1 : a.T1 ≤ t
    · rw [expiredPrefix_cons_expired t a l h1]
      simp only [List.length_cons, List.drop_succ_cons, commit_cons, Arrange.loop]
      rw [ih _ (fun x hx => h x (List.mem_cons_of_mem a hx)),
        h a (List.mem_cons_self a l) h1]
    · rw [expiredPrefix_cons_active t a l (not_le.mp h1)]
      rfl

/-- With `Rotation == 0` and no Size, Affine calls neither Rotate nor Scale:
its result is the identity with the two translations composed onto it. -/
theorem Affine_skip_paths (A : Float32Ops F) (O : AffineOps F Aff) (ar : Arrangement F Tex)
    (hr : A.beq ar.Rotation A.zero = true) (hs : ar.Size = none) :
    Affine A O (some ar)
      = O.Translate (O.Translate O.Identity ar.Offset.X ar.Offset.Y)
          (A.neg ar.Pivot.X) (A.neg ar.Pivot.Y) := by
  simp [Affine, hr, hs]

/-! ## Squash: main theorems -/

/-- C1: for every Arrangement and time, Squash computes the reference
definition: the pose is the Arrangement with the longest prefix of transforms
with `T1 <= t` committed in sequence order at tween 1, and the queue is the
original queue with that prefix dropped. In particular, when the queue is
`pre ++ b :: post` with all of `pre` expired and `t < b.T1`, exactly `pre` is
committed and `b :: post` stays, whatever the end times in `post`; and when
every transform has expired the whole queue is committed. -/
theorem Squash_matches_reference (A : Float32Ops F) (ar : Arrangement F Tex) (t : Int) :
    Squash A ar t = Squash_ref A ar t
    ∧ (∀ (pre post : List (Transform F)) (b : Transform F),
        ar.Transforms = pre ++ b :: post → (∀ a ∈ pre, a.T1 ≤ t) → t < b.T1 →
        Squash A ar t = { commit A pre ar with Transforms := b :: post })
    ∧ ((∀ a ∈ ar.Transforms, a.T1 ≤ t) →
        Squash A ar t = { commit A ar.Transforms ar with Transforms := [] }) := by
  refine ⟨Squash_eq_ref A ar t, ?_, ?_⟩
  · intro pre post b hq hpre hb
    rw [Squash_eq_ref]
    simp only [Squash_ref, hq, expiredPrefix_split t pre post b hpre hb, List.drop_left]
  · intro hall
    rw [Squash_eq_ref]
    simp only [Squash_ref, expiredPrefix_all t ar.Transforms hall, List.drop_length]

/-- Evaluation of C1 on a queue whose third transform has expired behind a
second one that has not: only the first is committed. -/
theorem Squash_matches_reference_witness :
    (∀ a ∈ [sampleMove 3 1 2], a.T1 ≤ 5) ∧ (5 : Int) < (sampleRotate 10 5).T1
    ∧ Squash intOps
        (sampleArrangement [sampleMove 3 1 2, sampleRotate 10 5, sampleMove 4 7 7]) 5
      = { commit intOps [sampleMove 3 1 2]
            (sampleArrangement [sampleMove 3 1 2, sampleRotate 10 5, sampleMove 4 7 7])
          with Transforms := [sampleRotate 10 5, sampleMove 4 7 7] } :=
  ⟨by decide, by decide,
    (Squash_matches_reference intOps
      (sampleArrangement [sampleMove 3 1 2, sampleRotate 10 5, sampleMove 4 7 7]) 5).2.1
      [sampleMove 3 1 2] [sampleMove 4 7 7] (sampleRotate 10 5) rfl (by decide) (by decide)⟩

/-- C8, as stated, fails: on the queue `[A, B]` with `A.T1 = 10` and
`B.T1 = 3`, Squash at time 15 does not stop after `A`; both end times have
passed, both are committed and the queue is left empty. -/
theorem Squash_commits_only_first_false :
    (Squash intOps (sampleArrangement [sampleMove 10 1 0, sampleMove 3 0 1]) 15).Transforms = []
    ∧ (Squash intOps (sampleArrangement [sampleMove 10 1 0, sampleMove 3 0 1]) 15).Offset.X = 25
    ∧ (Squash intOps (sampleArrangement [sampleMove 10 1 0, sampleMove 3 0 1]) 15).Offset.Y = -35
    ∧ ¬ (Squash intOps (sampleArrangement [sampleMove 10 1 0, sampleMove 3 0 1]) 15
          = { commit intOps [sampleMove 10 1 0]
                (sampleArrangement [sampleMove 10 1 0, sampleMove 3 0 1])
              with Transforms := [sampleMove 3 0 1] }) := by
  refine ⟨rfl, rfl, rfl, ?_⟩
  intro h
  have hlen := congrArg (fun x => x.Transforms.length) h
  exact absurd hlen (by decide)

/-- C8, amended: for a queue `[A, B]` whose end times are 10 and 3, in either
order, Squash at time 15 commits both, `A` before `B`, each at tween 1, and
leaves the queue empty. -/
theorem Squash_two_expired (A : Float32Ops F) (ar : Arrangement F Tex) (a b : Transform F)
    (hq : ar.Transforms = [a, b])
    (hT : (a.T1 = 10 ∧ b.T1 = 3) ∨ (a.T1 = 3 ∧ b.T1 = 10)) :
    Squash A ar 15
      = { Transformer.Transform A b.Transformer
            (Transformer.Transform A a.Transformer ar A.one) A.one
          with Transforms := [] } := by
  have hall : ∀ x ∈ [a, b], x.T1 ≤ 15 := by
    intro x hx
    simp only [List.mem_cons, List.mem_singleton, List.not_mem_nil, or_false] at hx
    rcases hx with rfl | rfl <;> omega
  rw [Squash_eq_ref]
  simp only [Squash_ref, hq, expiredPrefix_all 15 [a, b] hall, List.drop_length]
  rfl

/-- Evaluation of the amended C8 on a queue with end times 10 then 3. -/
theorem Squash_two_expired_witness :
    ((sampleMove 10 1 0).T1 = 10 ∧ (sampleMove 3 0 1).T1 = 3)
    ∧ Squash intOps (sampleArrangement [sampleMove 10 1 0, sampleMove 3 0 1]) 15
      = { Transformer.Transform intOps (sampleMove 3 0 1).Transformer
            (Transformer.Transform intOps (sampleMove 10 1 0).Transformer
              (sampleArrangement [sampleMove 10 1 0, sampleMove 3 0 1]) intOps.one) intOps.one
          with Transforms := [] } :=
  ⟨⟨rfl, rfl⟩,
    Squash_two_expired intOps (sampleArrangement [sampleMove 10 1 0, sampleMove 3 0 1])
      (sampleMove 10 1 0) (sampleMove 3 0 1) rfl (Or.inl ⟨rfl, rfl⟩)⟩

/-- C10: for all times `t1 <= t2`, Squash at `t1` followed by Squash at `t2`
yields the same Arrangement, pose and queue, as Squash at `t2` alone; and a
second Squash at the same time runs its loop without committing or removing
anything (`remove` stays 0) and returns the Arrangement unchanged. -/
theorem Squash_Squash (A : Float32Ops F) (ar : Arrangement F Tex) (t1 t2 : Int)
    (h : t1 ≤ t2) :
    Squash A (Squash A ar t1) t2 = Squash A ar t2
    ∧ Squash.loop A t1 (Squash A ar t1).Transforms (Squash A ar t1) 0 = (Squash A ar t1, 0)
    ∧ Squash A (Squash A ar t1) t1 = Squash A ar t1 := by
  refine ⟨?_, ?_, ?_⟩
  · simp only [Squash_eq_ref]
    exact Squash_ref_twice A ar t1 t2 h
  · rw [Squash.loop_eq, Squash_eq_ref, Squash_ref_Transforms, expiredPrefix_drop_self]
    rfl
  · simp only [Squash_eq_ref]
    exact Squash_ref_twice A ar t1 t1 (le_refl t1)

/-- Evaluation of C10 at times 5 and 12 on a three-element queue. -/
theorem Squash_Squash_witness :
    (5 : Int) ≤ 12
    ∧ Squash intOps (Squash intOps
          (sampleArrangement [sampleMove 3 1 2, sampleRotate 10 5, sampleMove 40 7 7]) 5) 12
      = Squash intOps
          (sampleArrangement [sampleMove 3 1 2, sampleRotate 10 5, sampleMove 40 7 7]) 12 :=
  ⟨by decide,
    (Squash_Squash intOps
      (sampleArrangement [sampleMove 3 1 2, sampleRotate 10 5, sampleMove 40 7 7]) 5 12
      (by decide)).1⟩

/-! ## Arrange: main theorems -/

/-- C3: for every Arrangement and time, Arrange emits the texture of the
Arrangement unchanged and the affine of the pose obtained from a copy of the
Arrangement by applying every transform of the queue in insertion order, each
through its Transformer with tween `Tween(T0, T1, t)`, the effects
accumulating on that one copy. -/
theorem Arrange_emits (A : Float32Ops F) (O : AffineOps F Aff) (ar : Arrangement F Tex)
    (n : N) (t : Int) :
    (Arrange A O ar n t).calls
      = [EngineCall.SetTexture n t ar.Texture,
         EngineCall.SetTransform n t (Affine A O (some (poseAt A ar t)))] := by
  simp only [Arrange, Arrange.loop_Texture]
  simp only [poseAt, Arrange.loop_eq_foldl]

/-- C2: for every Arrangement (its transformers are Rotate or Move) and every
time `t`, when the tween of each transform of the queue returns 1 once
`T1 <= t`, Squash at `t` followed by Arrange at `t` emits the same texture and
the same affine as Arrange at `t` alone. -/
theorem Squash_then_Arrange (A : Float32Ops F) (O : AffineOps F Aff) (ar : Arrangement F Tex)
    (n : N) (t : Int)
    (h : ∀ a ∈ ar.Transforms, a.T1 ≤ t → a.Tween a.T0 a.T1 t = A.one) :
    (Arrange A O (Squash A ar t) n t).calls = (Arrange A O ar n t).calls := by
  rw [Squash_eq_ref]
  simp only [Arrange, Squash_ref, Arrange.loop_setQueue, Affine_setQueue,
    Arrange.loop_after_commit A t ar.Transforms ar h]

/-- Evaluation of C2 at time 5 with tweens that clamp to 1 at the end of
their window. -/
theorem Squash_then_Arrange_witness :
    (∀ a ∈ [sampleMove 3 1 2, sampleRotate 10 5, sampleMove 4 7 7],
        a.T1 ≤ 5 → a.Tween a.T0 a.T1 5 = intOps.one)
    ∧ (Arrange intOps (traceOps Int)
          (Squash intOps
            (sampleArrangement [sampleMove 3 1 2, sampleRotate 10 5, sampleMove 4 7 7]) 5)
          (0 : Nat) 5).calls
      = (Arrange intOps (traceOps Int)
          (sampleArrangement [sampleMove 3 1 2, sampleRotate 10 5, sampleMove 4 7 7])
          (0 : Nat) 5).calls :=
  ⟨by decide,
    Squash_then_Arrange intOps (traceOps Int)
      (sampleArrangement [sampleMove 3 1 2, sampleRotate 10 5, sampleMove 4 7 7]) (0 : Nat) 5
      (by decide)⟩

/-- C4: for every Arrangement (its transformers are Rotate or Move) and every
time, Arrange leaves the stored Arrangement unchanged in every field, so that
a second evaluation at the same time, run on what the first one left, emits
the same texture and affine and again leaves the Arrangement unchanged. -/
theorem Arrange_frame (A : Float32Ops F) (O : AffineOps F Aff) (ar : Arrangement F Tex)
    (n : N) (t : Int) :
    (Arrange A O ar n t).stored = ar
    ∧ (Arrange A O (Arrange A O ar n t).stored n t).calls = (Arrange A O ar n t).calls
    ∧ (Arrange A O (Arrange A O ar n t).stored n t).stored = ar := by
  rw [Arrange_stored]
  exact ⟨rfl, rfl, Arrange_stored A O ar n t⟩

/-! ## Affine and Move -/

/-- C5: for every non-nil Arrangement, Affine is the identity with the steps
translate by Offset, rotate by Rotation (left out exactly when
`Rotation == 0`), translate by minus Pivot, scale by Size (left out exactly
when Size is absent) composed onto the accumulated matrix one after the other
in that order; for a nil Arrangement it is the identity. -/
theorem Affine_composition (A : Float32Ops F) (O : AffineOps F Aff) (ar : Arrangement F Tex) :
    Affine A O (some ar) = (affineSteps A ar).foldl (AffineStep.compose O) O.Identity
    ∧ Affine A O (none : Option (Arrangement F Tex)) = O.Identity := by
  refine ⟨?_, rfl⟩
  cases hs : ar.Size <;> cases hr : A.beq ar.Rotation A.zero <;>
    simp [Affine, affineSteps, AffineStep.compose, hs, hr]

/-- The Transform of Move writes the two components of Offset, each the
`float32` sum of the old component and the `float32` product of the delta and
the tween, and no other field. What these sums and products evaluate to is a
matter of `float32` arithmetic, which is kept abstract here. -/
theorem Move_Transform_fields (A : Float32Ops F) (m : Point F) (ar : Arrangement F Tex)
    (w : F) :
    (Move.Transform A m ar w).Offset.X = A.add ar.Offset.X (A.mul m.X w)
    ∧ (Move.Transform A m ar w).Offset.Y = A.add ar.Offset.Y (A.mul m.Y w)
    ∧ (Move.Transform A m ar w).Pivot = ar.Pivot
    ∧ (Move.Transform A m ar w).Size = ar.Size
    ∧ (Move.Transform A m ar w).Rotation = ar.Rotation
    ∧ (Move.Transform A m ar w).Texture = ar.Texture
    ∧ (Move.Transform A m ar w).Transforms = ar.Transforms :=
  ⟨rfl, rfl, rfl, rfl, rfl, rfl, rfl⟩

/-! ## The animation state machine: main theorem -/

/-- The table of `addSkull` for duration 240: init lasts 60, falling 240, reset 0. -/
theorem skullStates_240 :
    skullStates 240
      = [("init", { Duration := 60, Next := "falling" }),
         ("falling", { Duration := 240, Next := "reset" }),
         ("reset", { Duration := 0, Next := "falling" })] := rfl

theorem tdiv_240_4 : Int.tdiv 240 4 = 60 := by decide

/-- A tick before time 60 leaves the machine in `init`, entered at 0. -/
theorem tick_init (t : Int) (h : t < 60) : Animation.tick (skullAnim 240) t = skullAnim 240 := by
  simp [Animation.tick, skullAnim, skullStates, tdiv_240_4, List.lookup]
  omega

theorem run_init (pre : List Int) (h : ∀ t ∈ pre, t < 60) :
    Animation.run (skullAnim 240) pre = skullAnim 240 := by
  induction pre with
  | nil => rfl
  | cons t pre ih =>
    have ht := tick_init t (h t (List.mem_cons_self t pre))
    simp only [Animation.run, List.foldl_cons, ht]
    exact ih (fun x hx => h x (List.mem_cons_of_mem t hx))

/-- The tick at time 60 enters `falling`. -/
theorem tick_60 :
    Animation.tick (skullAnim 240) 60
      = { Current := "falling", Since := 60, States := skullStates 240 } := by
  simp [Animation.tick, Animation.passThrough, Animation.advance, skullAnim, skullStates,
    tdiv_240_4, List.lookup]

/-- From `falling`, a tick at any time ends in `falling`: either the state
has not expired, or the machine moves to `reset` and passes through it. -/
theorem tick_falling (s now : Int) :
    Animation.tick { Current := "falling", Since := s, States := skullStates 240 } now
        = { Current := "falling", Since := s, States := skullStates 240 }
    ∨ Animation.tick { Current := "falling", Since := s, States := skullStates 240 } now
        = { Current := "falling", Since := now, States := skullStates 240 } := by
  by_cases h : (240 : Int) ≤ now - s
  · right
    simp [Animation.tick, Animation.passThrough, Animation.advance, skullStates_240, List.lookup, h]
  · left
    simp [Animation.tick, skullStates_240, List.lookup, h]

theorem run_falling (post : List Int) (s : Int) :
    ∃ s2, Animation.run { Current := "falling", Since := s, States := skullStates 240 } post
      = { Current := "falling", Since := s2, States := skullStates 240 } := by
  induction post generalizing s with
  | nil => exact ⟨s, rfl⟩
  | cons t post ih =>
    simp only [Animation.run, List.foldl_cons]
    rcases tick_falling s t with h | h
    · rw [h]; exact ih s
    · rw [h]; exact ih t

theorem run_append (m : Animation) (xs ys : List Int) :
    Animation.run m (xs ++ ys) = Animation.run (Animation.run m xs) ys := by
  simp [Animation.run, List.foldl_append]

/-- C9: the machine with the table of `addSkull` for duration 240 (init: 60
then falling; falling: 240 then reset; reset: 0 then falling), started in
`init` at time 0 and ticked with the current time, is in `falling` after the
tick at time 60, whatever ticks came before 60; and after any sequence of
further ticks its current state is `falling`, never `reset`. -/
theorem skull_animation_never_reset (pre post : List Int) (hpre : ∀ t ∈ pre, t < 60) :
    (Animation.run (skullAnim 240) (pre ++ [60])).Current = "falling"
    ∧ (Animation.run (skullAnim 240) (pre ++ [60] ++ post)).Current = "falling"
    ∧ (Animation.run (skullAnim 240) (pre ++ [60] ++ post)).Current ≠ "reset" := by
  have h60 : Animation.run (skullAnim 240) (pre ++ [60])
      = { Current := "falling", Since := 60, States := skullStates 240 } := by
    rw [run_append, run_init pre hpre]
    exact tick_60
  obtain ⟨s2, hs2⟩ := run_falling post 60
  refine ⟨by rw [h60], ?_, ?_⟩
  · rw [run_append, h60, hs2]
  · rw [run_append, h60, hs2]
    show "falling" ≠ "reset"
    decide

/-- Evaluation of C9 on ticks at 0, 30, 59 before 60 and at 61, 300, 300,
540, 541 after: the tick at 300 enters `reset` and leaves it at once. -/
theorem skull_animation_never_reset_witness :
    (∀ t ∈ [(0 : Int), 30, 59], t < 60)
    ∧ (Animation.run (skullAnim 240) ([0, 30, 59] ++ [60] ++ [61, 300, 300, 540, 541])).Current
        = "falling" :=
  ⟨by decide,
    (skull_animation_never_reset [0, 30, 59] [61, 300, 300, 540, 541] (by decide)).2.1⟩

end animation
